import Mathlib

/-!
Verification of the holoviews datashader tutorial notebooks.

The notebooks under `src/` drive the `aggregate`, `datashade`, `decimate` and
`dynspread` operations of holoviews on synthetic data built by `random_walk`,
`random_cov`, `time_series` and `rand_gauss2d`, and wire a `Selection1D` stream
into `selected_info`.  The operations themselves live in
`holoviews/operation/datashader.py`, which is not part of the provided sources;
they are modelled here from the spec's data model (Viewport, DataSource,
Aggregate Grid, Image and the three-stage listen → aggregate-to-grid →
render-image pipeline).  The notebook-level helper functions are embedded
directly from their source.
-/

/-- Modelled from the spec: "Viewport: (x_min, x_max, y_min, y_max,
pixel_width, pixel_height) — mutable, replaced wholesale on each pan/zoom."
Coordinates are rationals standing for the numeric data-space bounds. -/
structure Viewport where
  x_min : ℚ
  x_max : ℚ
  y_min : ℚ
  y_max : ℚ
  pixel_width : ℕ
  pixel_height : ℕ
  deriving Repr, DecidableEq

/-- A record of the data source: a point with numeric coordinate fields. -/
abbrev Record := ℚ × ℚ

/-- Modelled from the spec: "DataSource: an immutable or append-only collection
of records with numeric coordinate fields." -/
abbrev DataSource := List Record

/-- Modelled from the spec: "Aggregate Grid: a 2D array of bin values, one bin
per output pixel".  Rows are pixel rows; each bin value is a count. -/
abbrev AggregateGrid := List (List ℕ)

/-- An RGBA pixel of the rendered image. -/
structure RGBA where
  r : ℕ
  g : ℕ
  b : ℕ
  a : ℕ
  deriving Repr, DecidableEq

/-- Modelled from the spec: "Image: RGBA buffer derived from the Aggregate Grid
via a colorization rule". -/
abbrev Image := List (List RGBA)

/-- Width in data space of one pixel column of the viewport. -/
def Viewport.dx (v : Viewport) : ℚ := (v.x_max - v.x_min) / v.pixel_width

/-- Height in data space of one pixel row of the viewport. -/
def Viewport.dy (v : Viewport) : ℚ := (v.y_max - v.y_min) / v.pixel_height

/-- Modelled from the spec: the axis-aligned data-space bin of output pixel
(row `i`, column `j`): a half-open rectangle, given by its x-interval and
y-interval. -/
def binRect (v : Viewport) (i j : ℕ) : (ℚ × ℚ) × (ℚ × ℚ) :=
  ((v.x_min + j * v.dx, v.x_min + (j + 1) * v.dx),
   (v.y_min + i * v.dy, v.y_min + (i + 1) * v.dy))

/-- Membership of a record in the bin of output pixel (row `i`, column `j`). -/
def inBin (v : Viewport) (i j : ℕ) (p : Record) : Prop :=
  v.x_min + j * v.dx ≤ p.1 ∧ p.1 < v.x_min + (j + 1) * v.dx ∧
  v.y_min + i * v.dy ≤ p.2 ∧ p.2 < v.y_min + (i + 1) * v.dy

instance (v : Viewport) (i j : ℕ) (p : Record) : Decidable (inBin v i j p) := by
  unfold inBin; infer_instance

/-- The bin value of pixel (row `i`, column `j`): how many records of the data
source fall into its bin. -/
def binCount (d : DataSource) (v : Viewport) (i j : ℕ) : ℕ :=
  d.countP (fun p => decide (inBin v i j p))

/-- Modelled from the spec: the aggregation step, binning the records of the
data source into a fresh 2D grid with one bin per output pixel of the
viewport. -/
def aggregate (d : DataSource) (v : Viewport) : AggregateGrid :=
  (List.range v.pixel_height).map (fun i =>
    (List.range v.pixel_width).map (fun j => binCount d v i j))

/-- The colorization rule applied to a single bin value: zero bins are
transparent background, nonzero bins are shaded blue with saturating
intensity. -/
def cmap (n : ℕ) : RGBA :=
  ⟨255 - min 255 n, 255 - min 255 n, 255, if n = 0 then 0 else 255⟩

/-- Modelled from the spec: the colorization step deriving the RGBA image from
the aggregate grid, bin value by bin value. -/
def shade (g : AggregateGrid) : Image :=
  g.map (fun row => row.map cmap)

/-- Modelled from the spec: the rasterization callback `datashade`, mapping a
data source plus a viewport tuple to a fixed-size image buffer.  It is written
as the fused single pass from records to pixels; that it factors through the
aggregate grid is proved below. -/
def datashade (d : DataSource) (v : Viewport) : Image :=
  (List.range v.pixel_height).map (fun i =>
    (List.range v.pixel_width).map (fun j => cmap (binCount d v i j)))

/-- The empty/placeholder image for a viewport: every pixel is the background
color `cmap 0`. -/
def emptyImage (v : Viewport) : Image :=
  (List.range v.pixel_height).map (fun _ =>
    (List.range v.pixel_width).map (fun _ => cmap 0))

/-- Modelled from the spec: the pipeline state seen by the Display Surface:
the current viewport (replaced wholesale on each event) and the currently
displayed image (replaced on each redraw). -/
structure PipelineState where
  viewport : Option Viewport
  image : Option Image
  deriving Repr, DecidableEq

/-- Before any event arrives nothing is displayed. -/
def initState : PipelineState := ⟨none, none⟩

/-- Modelled from the spec: processing one viewport-change event: the viewport
is replaced wholesale by the event's tuple and the image is recomputed from
the data source and that viewport alone. -/
def step (d : DataSource) (_s : PipelineState) (v : Viewport) : PipelineState :=
  ⟨some v, some (datashade d v)⟩

/-- Modelled from the spec: the Viewport-Change Listener processing a finite
sequence of pan/zoom events in order. -/
def runPipeline (d : DataSource) (evs : List Viewport) : PipelineState :=
  evs.foldl (step d) initState

/-- Modelled from the spec: `decimate` downsamples the data source to at most
`max_samples` records; it reads the records and does not write them. -/
def decimate (max_samples : ℕ) (d : DataSource) : DataSource :=
  d.take max_samples

/-- The pixel of an image at (row `i`, column `j`), background outside. -/
def pixelAt (im : Image) (i j : ℕ) : RGBA :=
  (im.getD i []).getD j (cmap 0)

/-- A pixel showing no data (fully transparent). -/
def isEmptyPx (p : RGBA) : Bool := p.a == 0

/-- Modelled from the spec: "Spreading: post-processing an image so isolated
nonzero pixels are visibly enlarged."  An empty pixel takes the value of a
nonempty 4-neighbor when one exists. -/
def dynspread (im : Image) : Image :=
  (List.range im.length).map (fun i =>
    (List.range ((im.getD i []).length)).map (fun j =>
      let p := pixelAt im i j
      if isEmptyPx p then
        let candidates := [pixelAt im i (j + 1), pixelAt im (i + 1) j] ++
          (if 0 < j then [pixelAt im i (j - 1)] else []) ++
          (if 0 < i then [pixelAt im (i - 1) j] else [])
        match candidates.find? (fun q => ! isEmptyPx q) with
        | some q => q
        | none => p
      else p))

/-- An operation applied to the data source in the notebook compositions
`decimate(points) + datashade(points)` and
`datashade(points) + dynspread(datashade(points))`. -/
inductive DSOp
  | decimateOp
  | aggregateOp
  | datashadeOp
  | dynspreadOp
  deriving Repr, DecidableEq

/-- The value an operation hands to the display: decimated points, an
aggregate grid, or an image. -/
inductive DSOutput
  | pts (d : DataSource)
  | grid (g : AggregateGrid)
  | img (im : Image)
  deriving Repr, DecidableEq

/-- Running one operation against the store holding the data source: the
operation's output together with the data source the store holds afterwards. -/
def applyOp (v : Viewport) (o : DSOp) (d : DataSource) : DSOutput × DataSource :=
  match o with
  | .decimateOp => (.pts (decimate 1000 d), d)
  | .aggregateOp => (.grid (aggregate d v), d)
  | .datashadeOp => (.img (datashade d v), d)
  | .dynspreadOp => (.img (dynspread (datashade d v)), d)

/-- Running a sequence of operations, threading the stored data source from
each operation to the next. -/
def runOps (v : Viewport) (ops : List DSOp) (d : DataSource) : List DSOutput × DataSource :=
  match ops with
  | [] => ([], d)
  | o :: rest =>
    let r := applyOp v o d
    let rs := runOps v rest r.2
    (r.1 :: rs.1, rs.2)

/-- On an axis split into `w` half-open cells of width `d` starting at `lo`,
every coordinate `x` of the covered interval lies in exactly one cell. -/
theorem bin_index_unique (lo d : ℚ) (w : ℕ) (x : ℚ) (hd : 0 < d)
    (hlo : lo ≤ x) (hhi : x < lo + w * d) :
    ∃! j : ℕ, j < w ∧ lo + j * d ≤ x ∧ x < lo + (j + 1) * d := by
  have hq0 : (0 : ℚ) ≤ (x - lo) / d := div_nonneg (by linarith) hd.le
  have key : ∀ j : ℕ, (j < w ∧ lo + j * d ≤ x ∧ x < lo + (j + 1) * d) ↔
      ⌊(x - lo) / d⌋ = (j : ℤ) := by
    intro j
    rw [Int.floor_eq_iff]
    constructor
    · rintro ⟨hjw, h1, h2⟩
      constructor
      · rw [Int.cast_natCast, le_div_iff₀ hd]
        linarith
      · rw [div_lt_iff₀ hd]
        push_cast
        linarith
    · rintro ⟨h1, h2⟩
      rw [Int.cast_natCast, le_div_iff₀ hd] at h1
      rw [div_lt_iff₀ hd] at h2
      push_cast at h2
      have hjq : (j : ℚ) * d ≤ x - lo := h1
      have hw2 : (x - lo) < (w : ℚ) * d := by linarith
      have hjw : (j : ℚ) < (w : ℚ) := by
        by_contra hcon
        push_neg at hcon
        have : (w : ℚ) * d ≤ (j : ℚ) * d := by
          exact mul_le_mul_of_nonneg_right hcon hd.le
        linarith
      exact ⟨by exact_mod_cast hjw, by linarith, by linarith⟩
  refine ⟨(⌊(x - lo) / d⌋).toNat, ?_, ?_⟩
  · exact (key _).mpr (Int.toNat_of_nonneg (Int.floor_nonneg.mpr hq0)).symm
  · intro j' hj'
    have h1 := (key j').mp hj'
    have h2 : (((⌊(x - lo) / d⌋).toNat : ℕ) : ℤ) = (j' : ℤ) := by
      rw [Int.toNat_of_nonneg (Int.floor_nonneg.mpr hq0)]
      exact h1
    exact_mod_cast h2.symm

/-- **C1.** For every viewport whose pixel dimensions are
(pixel_width, pixel_height), the aggregate grid produced by the aggregation
step for that viewport has exactly pixel_width columns and pixel_height rows:
one bin per requested output pixel. -/
theorem aggregate_grid_dims (d : DataSource) (v : Viewport) :
    (aggregate d v).length = v.pixel_height ∧
    ∀ row ∈ aggregate d v, row.length = v.pixel_width := by
  constructor
  · simp [aggregate]
  · intro row hrow
    simp only [aggregate, List.mem_map] at hrow
    obtain ⟨i, _, hi⟩ := hrow
    simp [← hi]

/-- **C2.** For every viewport, the mapping from output pixels to bins of the
aggregate grid is a function onto axis-aligned bins: each output pixel maps to
exactly one axis-aligned rectangular bin of the viewport's data-space
rectangle (the bin is a nonempty axis-aligned sub-rectangle of the viewport
rectangle, the bin a record is counted in is the pixel's bin rectangle, and
every point of the viewport rectangle lies in the bin of exactly one pixel, so
no pixel is split across bins and no pixel is left without a bin). -/
theorem pixel_bin_partition (v : Viewport)
    (hx : v.x_min < v.x_max) (hy : v.y_min < v.y_max)
    (hw : 0 < v.pixel_width) (hh : 0 < v.pixel_height) :
    (∀ i j, i < v.pixel_height → j < v.pixel_width →
      (v.x_min ≤ (binRect v i j).1.1 ∧ (binRect v i j).1.1 < (binRect v i j).1.2 ∧
        (binRect v i j).1.2 ≤ v.x_max) ∧
      (v.y_min ≤ (binRect v i j).2.1 ∧ (binRect v i j).2.1 < (binRect v i j).2.2 ∧
        (binRect v i j).2.2 ≤ v.y_max) ∧
      (∀ p : Record, inBin v i j p ↔
        ((binRect v i j).1.1 ≤ p.1 ∧ p.1 < (binRect v i j).1.2 ∧
         (binRect v i j).2.1 ≤ p.2 ∧ p.2 < (binRect v i j).2.2))) ∧
    (∀ p : Record, v.x_min ≤ p.1 → p.1 < v.x_max → v.y_min ≤ p.2 → p.2 < v.y_max →
      ∃! ij : ℕ × ℕ, ij.1 < v.pixel_height ∧ ij.2 < v.pixel_width ∧ inBin v ij.1 ij.2 p) := by
  have hwQ : (0 : ℚ) < (v.pixel_width : ℚ) := by exact_mod_cast hw
  have hhQ : (0 : ℚ) < (v.pixel_height : ℚ) := by exact_mod_cast hh
  have hdx : 0 < v.dx := div_pos (by linarith) hwQ
  have hdy : 0 < v.dy := div_pos (by linarith) hhQ
  have hwdx : (v.pixel_width : ℚ) * v.dx = v.x_max - v.x_min := by
    rw [Viewport.dx, mul_div_cancel₀]
    exact ne_of_gt hwQ
  have hhdy : (v.pixel_height : ℚ) * v.dy = v.y_max - v.y_min := by
    rw [Viewport.dy, mul_div_cancel₀]
    exact ne_of_gt hhQ
  constructor
  · intro i j hi hj
    have hjQ : (j : ℚ) + 1 ≤ (v.pixel_width : ℚ) := by exact_mod_cast hj
    have hiQ : (i : ℚ) + 1 ≤ (v.pixel_height : ℚ) := by exact_mod_cast hi
    have hjdx : ((j : ℚ) + 1) * v.dx ≤ (v.pixel_width : ℚ) * v.dx :=
      mul_le_mul_of_nonneg_right hjQ hdx.le
    have hidy : ((i : ℚ) + 1) * v.dy ≤ (v.pixel_height : ℚ) * v.dy :=
      mul_le_mul_of_nonneg_right hiQ hdy.le
    have hj0 : (0 : ℚ) ≤ (j : ℚ) * v.dx := mul_nonneg (Nat.cast_nonneg j) hdx.le
    have hi0 : (0 : ℚ) ≤ (i : ℚ) * v.dy := mul_nonneg (Nat.cast_nonneg i) hdy.le
    refine ⟨⟨?_, ?_, ?_⟩, ⟨?_, ?_, ?_⟩, ?_⟩
    · simp only [binRect]
      linarith
    · simp only [binRect]
      nlinarith
    · simp only [binRect]
      linarith [hwdx]
    · simp only [binRect]
      linarith
    · simp only [binRect]
      nlinarith
    · simp only [binRect]
      linarith [hhdy]
    · intro p
      simp only [binRect, inBin]
  · intro p hx1 hx2 hy1 hy2
    obtain ⟨j0, hj0, hj0u⟩ :=
      bin_index_unique v.x_min v.dx v.pixel_width p.1 hdx hx1 (by rw [hwdx]; linarith)
    obtain ⟨i0, hi0, hi0u⟩ :=
      bin_index_unique v.y_min v.dy v.pixel_height p.2 hdy hy1 (by rw [hhdy]; linarith)
    refine ⟨(i0, j0), ⟨hi0.1, hj0.1, hj0.2.1, hj0.2.2, hi0.2.1, hi0.2.2⟩, ?_⟩
    rintro ⟨i1, j1⟩ ⟨hi1, hj1, hb1, hb2, hb3, hb4⟩
    have hje : j1 = j0 := hj0u j1 ⟨hj1, hb1, hb2⟩
    have hie : i1 = i0 := hi0u i1 ⟨hi1, hb3, hb4⟩
    simp [hje, hie]

/-- Witness for C2 at the concrete viewport (0,1,0,1,2,2). -/
theorem pixel_bin_partition_witness :
    (∀ i j, i < (⟨0, 1, 0, 1, 2, 2⟩ : Viewport).pixel_height →
        j < (⟨0, 1, 0, 1, 2, 2⟩ : Viewport).pixel_width →
      ((⟨0, 1, 0, 1, 2, 2⟩ : Viewport).x_min ≤ (binRect ⟨0, 1, 0, 1, 2, 2⟩ i j).1.1 ∧
        (binRect ⟨0, 1, 0, 1, 2, 2⟩ i j).1.1 < (binRect ⟨0, 1, 0, 1, 2, 2⟩ i j).1.2 ∧
        (binRect ⟨0, 1, 0, 1, 2, 2⟩ i j).1.2 ≤ (⟨0, 1, 0, 1, 2, 2⟩ : Viewport).x_max) ∧
      ((⟨0, 1, 0, 1, 2, 2⟩ : Viewport).y_min ≤ (binRect ⟨0, 1, 0, 1, 2, 2⟩ i j).2.1 ∧
        (binRect ⟨0, 1, 0, 1, 2, 2⟩ i j).2.1 < (binRect ⟨0, 1, 0, 1, 2, 2⟩ i j).2.2 ∧
        (binRect ⟨0, 1, 0, 1, 2, 2⟩ i j).2.2 ≤ (⟨0, 1, 0, 1, 2, 2⟩ : Viewport).y_max) ∧
      (∀ p : Record, inBin ⟨0, 1, 0, 1, 2, 2⟩ i j p ↔
        ((binRect ⟨0, 1, 0, 1, 2, 2⟩ i j).1.1 ≤ p.1 ∧
         p.1 < (binRect ⟨0, 1, 0, 1, 2, 2⟩ i j).1.2 ∧
         (binRect ⟨0, 1, 0, 1, 2, 2⟩ i j).2.1 ≤ p.2 ∧
         p.2 < (binRect ⟨0, 1, 0, 1, 2, 2⟩ i j).2.2))) ∧
    (∀ p : Record, (⟨0, 1, 0, 1, 2, 2⟩ : Viewport).x_min ≤ p.1 →
        p.1 < (⟨0, 1, 0, 1, 2, 2⟩ : Viewport).x_max →
        (⟨0, 1, 0, 1, 2, 2⟩ : Viewport).y_min ≤ p.2 →
        p.2 < (⟨0, 1, 0, 1, 2, 2⟩ : Viewport).y_max →
      ∃! ij : ℕ × ℕ, ij.1 < (⟨0, 1, 0, 1, 2, 2⟩ : Viewport).pixel_height ∧
        ij.2 < (⟨0, 1, 0, 1, 2, 2⟩ : Viewport).pixel_width ∧
        inBin ⟨0, 1, 0, 1, 2, 2⟩ ij.1 ij.2 p) :=
  pixel_bin_partition ⟨0, 1, 0, 1, 2, 2⟩ (by norm_num) (by norm_num)
    (by norm_num) (by norm_num)

/-- **C3.** The rasterization callback is deterministic: any two runs of the
callback on the same data source and the same viewport yield identical
images. -/
theorem datashade_deterministic (d : DataSource) (v : Viewport) (img1 img2 : Image)
    (h1 : img1 = datashade d v) (h2 : img2 = datashade d v) : img1 = img2 :=
  h1.trans h2.symm

/-- Witness for C3: two runs on an empty data source and a 1×1 viewport. -/
theorem datashade_deterministic_witness :
    datashade [] ⟨0, 1, 0, 1, 1, 1⟩ = datashade [] ⟨0, 1, 0, 1, 1, 1⟩ :=
  datashade_deterministic [] ⟨0, 1, 0, 1, 1, 1⟩
    (datashade [] ⟨0, 1, 0, 1, 1, 1⟩) (datashade [] ⟨0, 1, 0, 1, 1, 1⟩) rfl rfl

/-- **C4.** For every data source and viewport the rendered image equals the
colorization rule applied to the aggregate grid computed for that same data
source and viewport: the render stage `datashade` factors as `shade`
composed with `aggregate`. -/
theorem datashade_factors (d : DataSource) (v : Viewport) :
    datashade d v = shade (aggregate d v) := by
  simp [datashade, shade, aggregate, List.map_map, Function.comp]

/-- **C5.** When the data source contains no records the pipeline does not
fail: for every viewport it renders the empty/placeholder image in which
every pixel is the background color. -/
theorem datashade_empty_source (v : Viewport) :
    datashade [] v = emptyImage v := by
  simp [datashade, emptyImage, binCount]

/-- **C6.** The pipeline keeps no persistent state across events and the
latest event wins: after any finite nonempty sequence of viewport-change
events the state equals the state computed from the last event alone,
independent of all earlier events, with the viewport replaced wholesale by
the last event's tuple and the image computed from it. -/
theorem latest_event_wins (d : DataSource) (evs : List Viewport) (v : Viewport) :
    runPipeline d (evs ++ [v]) = runPipeline d [v] ∧
    runPipeline d [v] = ⟨some v, some (datashade d v)⟩ := by
  constructor
  · simp [runPipeline, List.foldl_append, step]
  · rfl

/-- **C7.** The data source is never modified by the pipeline: running any
sequence of decimate/aggregate/datashade/dynspread operations leaves the
stored records unchanged, and every operation of the sequence sees the
identical original data. -/
theorem pipeline_preserves_source (v : Viewport) (ops : List DSOp) (d : DataSource) :
    (runOps v ops d).2 = d ∧
    (runOps v ops d).1 = ops.map (fun o => (applyOp v o d).1) := by
  induction ops with
  | nil => exact ⟨rfl, rfl⟩
  | cons o rest ih =>
    have h2 : (applyOp v o d).2 = d := by cases o <;> rfl
    refine ⟨?_, ?_⟩ <;> simp [runOps, h2, ih.1, ih.2]

/-- Full-mode discrete convolution, as `np.convolve(a, v)`: the result has
`a.length + v.length - 1` entries, entry `k` being the sum of `a[m] * v[k-m]`
over all valid `m`. -/
def convolveFull (a v : List ℚ) : List ℚ :=
  (List.range (a.length + v.length - 1)).map (fun k =>
    ((List.range (k + 1)).map (fun m => a.getD m 0 * v.getD (k - m) 0)).sum)

/-- Running sum, as numpy's `cumsum`: entry `k` is the sum of the first
`k + 1` entries. -/
def cumsum (xs : List ℚ) : List ℚ :=
  (List.range xs.length).map (fun k => ((xs.take (k + 1)).sum))

/-- `random_walk(n, f)` from the notebook: a 2D random walk smoothed with a
filter of length `f`.  The draws of `np.random.normal` are abstracted as the
streams `g1` (xs noise), `g2` (ys noise), `g3` and `g4` (measurement noise),
and `np.sin` as the function `sinq`; the claim under verification concerns
only the shape of the result, which none of these affect. -/
def random_walk (n f : ℕ) (g1 g2 g3 g4 : ℕ → ℚ) (sinq : ℚ → ℚ) : List (ℚ × ℚ) :=
  let xs0 := cumsum (convolveFull ((List.range n).map g1) (List.replicate f (1 / f)))
  let ys0 := cumsum (convolveFull ((List.range n).map g2) (List.replicate f (1 / f)))
  let wobble := (List.range (n - 1 + f)).map
    (fun (i : ℕ) => ((1 : ℚ) / 10) * sinq (((1 : ℚ) / 10) * (i : ℚ)))
  let xs1 := List.zipWith (· + ·) xs0 wobble
  let xs2 := List.zipWith (· + ·) xs1 ((List.range (n - 1 + f)).map g3)
  let ys1 := List.zipWith (· + ·) ys0 ((List.range (n - 1 + f)).map g4)
  List.zip xs2 ys1

/-- `random_cov()` from the notebook: `np.dot(A, A.T)` for a random 2×2
matrix `A` (abstracted as an arbitrary matrix, since the property under
verification holds for every draw). -/
def random_cov (A : Matrix (Fin 2) (Fin 2) ℚ) : Matrix (Fin 2) (Fin 2) ℚ :=
  A * A.transpose

/-- `points.iloc[index]` from the selection notebook: integer-location
indexing of the points by a list of row indices; an out-of-range index raises
(`none`). -/
def iloc (pts : List (ℚ × ℚ)) (index : List ℕ) : Option (List (ℚ × ℚ)) :=
  match index with
  | [] => some []
  | i :: rest =>
    match pts[i]?, iloc pts rest with
    | some p, some ps => some (p :: ps)
    | _, _ => none

/-- The label `selected_info` attaches by `relabel`: either the
'No selection' text or the 'Mean x, y' text carrying the two column means. -/
inductive SelLabel
  | noSelection
  | meanXY (mx my : ℚ)
  deriving Repr, DecidableEq

/-- `selected_info(index)` from the selection notebook: slice the points to
the selection indices; when the index list is non-empty the label carries the
column means of the selected array, otherwise it is 'No selection'; the result
is the selected points relabeled.  `none` models an exception. -/
def selected_info (pts : List (ℚ × ℚ)) (index : List ℕ) :
    Option (SelLabel × List (ℚ × ℚ)) :=
  match iloc pts index with
  | none => none
  | some selected =>
    match index with
    | [] => some (.noSelection, selected)
    | _ :: _ =>
      some (.meanXY ((selected.map Prod.fst).sum / selected.length)
        ((selected.map Prod.snd).sum / selected.length), selected)

/-- The length of a full-mode convolution is `a.length + v.length - 1`. -/
theorem convolveFull_length (a v : List ℚ) :
    (convolveFull a v).length = a.length + v.length - 1 := by
  simp [convolveFull]

/-- `cumsum` preserves length. -/
theorem cumsum_length (xs : List ℚ) : (cumsum xs).length = xs.length := by
  simp [cumsum]

/-- **C8.** For every n ≥ 1 and filter length f ≥ 1, `random_walk(n, f)`
returns a two-column array (here: a list of coordinate pairs) with exactly
n + f - 1 rows, the full-convolution length. -/
theorem random_walk_length (n f : ℕ) (g1 g2 g3 g4 : ℕ → ℚ) (sinq : ℚ → ℚ)
    (hn : 1 ≤ n) (hf : 1 ≤ f) :
    (random_walk n f g1 g2 g3 g4 sinq).length = n + f - 1 := by
  simp only [random_walk]
  rw [List.length_zip, List.length_zipWith, List.length_zipWith, List.length_zipWith,
    cumsum_length, cumsum_length, convolveFull_length, convolveFull_length]
  simp only [List.length_map, List.length_range, List.length_replicate]
  omega

/-- Witness for C8 at n = 2, f = 3: the walk has 2 + 3 - 1 = 4 rows. -/
theorem random_walk_length_witness :
    (1 ≤ 2 ∧ 1 ≤ 3) ∧
    (random_walk 2 3 (fun _ => 0) (fun _ => 0) (fun _ => 0) (fun _ => 0)
      (fun q => q)).length = 2 + 3 - 1 :=
  ⟨⟨by decide, by decide⟩,
    random_walk_length 2 3 (fun _ => 0) (fun _ => 0) (fun _ => 0) (fun _ => 0)
      (fun q => q) (by decide) (by decide)⟩

/-- **C9.** Every matrix returned by `random_cov()` is a symmetric 2×2 matrix
(it equals its own transpose, being of the form A·Aᵀ) and is positive
semi-definite: for every vector x, the quadratic form x ⬝ (A·Aᵀ)·x is
nonnegative. -/
theorem random_cov_symm_psd (A : Matrix (Fin 2) (Fin 2) ℚ) :
    (random_cov A).transpose = random_cov A ∧
    ∀ x : Fin 2 → ℚ, 0 ≤ Matrix.dotProduct x ((random_cov A).mulVec x) := by
  constructor
  · rw [random_cov, Matrix.transpose_mul, Matrix.transpose_transpose]
  · intro x
    have hexp : Matrix.dotProduct x ((random_cov A).mulVec x) =
        (A 0 0 * x 0 + A 1 0 * x 1) ^ 2 + (A 0 1 * x 0 + A 1 1 * x 1) ^ 2 := by
      simp [random_cov, Matrix.dotProduct, Matrix.mulVec, Matrix.mul_apply,
        Matrix.transpose_apply, Fin.sum_univ_two]
      ring
    rw [hexp]
    positivity

/-- When every selection index is in range, `iloc` does not raise and returns
exactly the points at those indices, in selection order. -/
theorem iloc_sound (pts : List (ℚ × ℚ)) (index : List ℕ)
    (h : ∀ i ∈ index, i < pts.length) :
    iloc pts index = some (index.map (fun i => pts.getD i (0, 0))) := by
  induction index with
  | nil => rfl
  | cons i rest ih =>
    have hi : i < pts.length := h i (List.mem_cons_self i rest)
    have hrest : ∀ j ∈ rest, j < pts.length := fun j hj => h j (List.mem_cons_of_mem i hj)
    have hget : pts[i]? = some (pts.getD i (0, 0)) := by
      rw [List.getD_eq_getElem?_getD, List.getElem?_eq_getElem hi]
      rfl
    have hunfold : iloc pts (i :: rest) = (match pts[i]?, iloc pts rest with
      | some p, some ps => some (p :: ps)
      | _, _ => none) := rfl
    rw [hunfold, hget, ih hrest]
    rfl

/-- **C10.** For every list of selection indices (indices into the source
points, hence in range), `selected_info(index)` returns the points sliced to
those indices, relabeled: with an empty index list the result carries the
'No selection' label and contains no points, with a non-empty index list the
label reports the mean x and y of exactly the selected points; in neither
case does the function raise. -/
theorem selected_info_spec (pts : List (ℚ × ℚ)) (index : List ℕ)
    (h : ∀ i ∈ index, i < pts.length) :
    ∃ sel : List (ℚ × ℚ),
      iloc pts index = some sel ∧
      sel = index.map (fun i => pts.getD i (0, 0)) ∧
      (index = [] → selected_info pts index = some (.noSelection, [])) ∧
      (index ≠ [] → selected_info pts index =
        some (.meanXY ((sel.map Prod.fst).sum / sel.length)
          ((sel.map Prod.snd).sum / sel.length), sel)) := by
  refine ⟨index.map (fun i => pts.getD i (0, 0)), iloc_sound pts index h, rfl, ?_, ?_⟩
  · intro he
    subst he
    rfl
  · intro hne
    match index, hne with
    | i :: rest, _ =>
      simp only [selected_info, iloc_sound pts (i :: rest) h]

/-- Witness for C10 on the points [(1,2),(3,4)] with selection [0, 1]. -/
theorem selected_info_spec_witness :
    (∀ i ∈ [0, 1], i < ([((1 : ℚ), (2 : ℚ)), (3, 4)] : List (ℚ × ℚ)).length) ∧
    ∃ sel : List (ℚ × ℚ),
      iloc [((1 : ℚ), (2 : ℚ)), (3, 4)] [0, 1] = some sel ∧
      sel = ([0, 1] : List ℕ).map
        (fun i => ([((1 : ℚ), (2 : ℚ)), (3, 4)] : List (ℚ × ℚ)).getD i (0, 0)) ∧
      (([0, 1] : List ℕ) = [] →
        selected_info [((1 : ℚ), (2 : ℚ)), (3, 4)] [0, 1] = some (.noSelection, [])) ∧
      (([0, 1] : List ℕ) ≠ [] →
        selected_info [((1 : ℚ), (2 : ℚ)), (3, 4)] [0, 1] =
          some (.meanXY ((sel.map Prod.fst).sum / sel.length)
            ((sel.map Prod.snd).sum / sel.length), sel)) :=
  ⟨by decide, selected_info_spec [((1 : ℚ), (2 : ℚ)), (3, 4)] [0, 1] (by decide)⟩
